import Mathlib

/-!
Verification of the CortexPropel task-tree reconciliation core.

This file gives a shallow embedding, in Lean, of the reconciliation logic of
the repository (the identity resolver, tree reconciler, progress rollup and
metadata mirror sync), translated from:

- src/src/task_manager.py   (class TaskManager)
- src/src/database.py       (class TaskDatabase)
- src/cortexpropel/models.py (class Task, method update_progress)

Task-tree nodes are Python dicts; we embed them as a tree structure whose
scalar fields are `Option String` (`none` models an absent key, matching the
Python `dict.get` discipline used throughout the source).  Time stamps
(`datetime.now().isoformat()`) are threaded as an explicit `now : String`
argument, and `uuid.uuid4()` is modelled as an explicit generator supply
`gen : Nat -> String` consumed left to right in traversal order.
-/

set_option maxRecDepth 10000

/-- A task-tree node, as the Python dicts of src/src/task_manager.py: keys
id, title, description, status, created_at, updated_at, subtasks.  An
`Option` field set to `none` models a dict in which the key is absent. -/
inductive Node : Type where
  | mk (id : Option String) (title : Option String) (description : Option String)
      (status : Option String) (createdAt : Option String) (updatedAt : Option String)
      (subtasks : List Node) : Node

/-- Field accessor for the id key. -/
def Node.idOf : Node → Option String
  | .mk i _ _ _ _ _ _ => i

/-- Field accessor for the subtasks key (node.get with default empty list). -/
def Node.subs : Node → List Node
  | .mk _ _ _ _ _ _ s => s

/-- Field accessor for the title key. -/
def Node.titleOf : Node → Option String
  | .mk _ t _ _ _ _ _ => t

/-- Field accessor for the status key. -/
def Node.statusOf : Node → Option String
  | .mk _ _ _ s _ _ _ => s

/-- Descend in a tree along a list of child indices; `getPath n [] = n`,
`getPath n (i :: p)` recurses into the i-th subtask.  Used to state
properties of "every node of a tree". -/
def getPath : Node → List Nat → Option Node
  | n, [] => some n
  | n, i :: p =>
    match (Node.subs n)[i]? with
    | some c => getPath c p
    | none => none

mutual

/-- Pre-order list of the id values of every node of the tree (the raw ids,
root included, absent ids included as none). -/
def optIds : Node → List (Option String)
  | .mk i _ _ _ _ _ subs => i :: optIdsList subs

/-- Pre-order ids of a forest. -/
def optIdsList : List Node → List (Option String)
  | [] => []
  | c :: cs => optIds c ++ optIdsList cs

end

/-- Number of nodes of the tree (the node itself plus all descendants). -/
def Node.size (n : Node) : Nat := (optIds n).length

/-- Hexadecimal digit test, as accepted by Python int(s, 16) digit-wise. -/
def isHexDigit (c : Char) : Bool :=
  c.isDigit || ('a' ≤ c && c ≤ 'f') || ('A' ≤ c && c ≤ 'F')

/-- Fuel-driven worker for replaceDrop; the fuel is an upper bound on the
number of characters still to be consumed, so the zero-fuel branch is never
reached when started with the length of the list.  Structural recursion on
the fuel keeps the function kernel-reducible. -/
def replaceDropFuel (p : Char) (ps : List Char) : Nat → List Char → List Char
  | 0, l => l
  | _ + 1, [] => []
  | fuel + 1, c :: cs =>
    if (p :: ps).isPrefixOf (c :: cs) then replaceDropFuel p ps fuel (cs.drop ps.length)
    else c :: replaceDropFuel p ps fuel cs

/-- Remove every occurrence of the pattern p :: ps from a character list,
scanning left to right (Python str.replace(pat, '') on the underlying
characters). -/
def replaceDrop (p : Char) (ps : List Char) (l : List Char) : List Char :=
  replaceDropFuel p ps l.length l

/-- Strip leading and trailing curly-brace characters (Python str.strip on
the two-character set of braces, written here by code point to keep brace
characters out of the source of the check). -/
def stripBraces (s : List Char) : List Char :=
  let isBrace : Char → Bool := fun c => c = Char.ofNat 123 || c = Char.ofNat 125
  ((s.dropWhile isBrace).reverse.dropWhile isBrace).reverse

/-- Canonical hex form computed by the constructor uuid.UUID(s) of the Python
standard library before validating: remove the urn: and uuid: markers, strip
surrounding braces, drop the dashes. -/
def uuidCanon (s : String) : List Char :=
  let h1 := replaceDrop 'u' ['r', 'n', ':'] s.data
  let h2 := replaceDrop 'u' ['u', 'i', 'd', ':'] h1
  (stripBraces h2).filter (fun c => c ≠ '-')

/-- Whether uuid.UUID(s) succeeds: after canonicalisation there must remain
exactly 32 characters, all hexadecimal.  (This models the numeric parse
int(hex, 16) as a plain hex-digit check, ignoring Python's tolerance for
underscores and surrounding whitespace inside the 32 characters, which no
claim and no witness in this file depends on.) -/
def uuidShaped (s : String) : Bool :=
  let h := uuidCanon s
  h.length = 32 && h.all isHexDigit

/-- TaskManager._is_valid_uuid (src/src/task_manager.py:436-453): the empty
string (Python falsy) and the literal root are accepted outright, every
other string must parse as a UUID. -/
def isValidUuid (taskId : String) : Bool :=
  if taskId = "" || taskId = "root" then true
  else uuidShaped taskId

mutual

/-- Inner worker of TaskManager._extract_all_task_ids
(src/src/task_manager.py:455-476): collect the id of every node that has one
and is not the literal root, recursing over subtasks.  The Python original
accumulates into a set; the embedding returns the collection as a list and
all downstream uses are membership tests, as in the source. -/
def extractIds : Node → List String
  | .mk i _ _ _ _ _ subs =>
    (match i with
     | some t => if t ≠ "root" then [t] else []
     | none => []) ++ extractIdsList subs

/-- Forest version of extractIds. -/
def extractIdsList : List Node → List String
  | [] => []
  | c :: cs => extractIds c ++ extractIdsList cs

end

/-- TaskManager._identify_new_tasks (src/src/task_manager.py:492-521):
existing ids are those of the current tree together with the ids known to
the database mirror (TaskManager._get_existing_task_ids_from_db filters the
literal root out of the database ids); an id of the proposed tree is
classified as needing a fresh UUID when it is not among the existing ids or
when it is not a valid UUID.  The set union/difference of the source is
rendered with list filters of identical membership semantics. -/
def identifyNewTasks (cur : Node) (dbIds : List String) (new : Node) : List String :=
  let existing := extractIds cur ++ dbIds.filter (fun t => t ≠ "root")
  let newIds := extractIds new
  newIds.filter (fun t => t ∉ existing) ++ newIds.filter (fun t => isValidUuid t = false)

mutual

/-- Inner worker _process_node of TaskManager._assign_uuids_to_new_tasks
(src/src/task_manager.py:543-559): a node whose id is present, truthy
(non-empty), different from root, and either classified new or not a valid
UUID, receives the next generated UUID; every other node keeps its id;
subtasks are processed recursively in order.  The generator supply gen
stands for uuid.uuid4(), with k the number of UUIDs consumed so far. -/
def processNode (nt : List String) (gen : Nat → String) : Node → Nat → Node × Nat
  | .mk i t d s ca ua subs, k =>
    let rid : Option String × Nat :=
      match i with
      | some tid =>
        if tid ≠ "" ∧ tid ≠ "root" ∧ (tid ∈ nt ∨ isValidUuid tid = false) then
          (some (gen k), k + 1)
        else (some tid, k)
      | none => (none, k)
    let rsubs := processList nt gen subs rid.2
    (.mk rid.1 t d s ca ua rsubs.1, rsubs.2)

/-- Left-to-right processing of a subtask list, threading the generator
counter. -/
def processList (nt : List String) (gen : Nat → String) : List Node → Nat → List Node × Nat
  | [], k => ([], k)
  | c :: cs, k =>
    let rc := processNode nt gen c k
    let rcs := processList nt gen cs rc.2
    (rc.1 :: rcs.1, rcs.2)

end

/-- TaskManager._assign_uuids_to_new_tasks (src/src/task_manager.py:523-567)
with new_task_ids = None: the set of ids needing fresh UUIDs is computed by
_identify_new_tasks against the currently persisted tree and the database
mirror, then the proposed tree is rewritten by _process_node.  (The
old-to-new id_mapping that the source additionally forwards to
_handle_id_changes_in_database only migrates mirror rows and is not needed
by any property stated below.) -/
def assignUuidsToNewTasks (cur : Node) (dbIds : List String) (gen : Nat → String)
    (new : Node) : Node :=
  (processNode (identifyNewTasks cur dbIds new) gen new 0).1

/-- Specification-level description of what _process_node does to one id
value: a present, non-empty, non-root id that is classified new or invalid
is rewritten to the j-th generated UUID; every other id value is kept. -/
def newIdOf (nt : List String) (gen : Nat → String) (j : Nat) : Option String → Option String
  | some tid =>
    if tid ≠ "" ∧ tid ≠ "root" ∧ (tid ∈ nt ∨ isValidUuid tid = false) then some (gen j)
    else some tid
  | none => none

/-- Concrete UUID-shaped identifier used by concrete instances below. -/
def uuidA : String := "11111111-1111-1111-1111-111111111111"

/-- Second concrete UUID-shaped identifier, used as generator output. -/
def uuidB : String := "22222222-2222-2222-2222-222222222222"

/-- Constant generator supply producing uuidB. -/
def genB : Nat → String := fun _ => uuidB

/-- A bare root node, as produced by TaskManager._initialize_task_tree up to
the constant title/description/status/timestamp fields, which play no role
in identity resolution. -/
def rootOnly : Node := .mk (some "root") none none none none none []

/-- A root node with the given children. -/
def rootWith (cs : List Node) : Node := .mk (some "root") none none none none none cs

/-- A leaf node carrying only an id value. -/
def leaf (i : Option String) : Node := .mk i none none none none none []


/-- Field accessor for the description key. -/
def Node.descOf : Node → Option String
  | .mk _ _ d _ _ _ _ => d

/-- Field accessor for the created_at key. -/
def Node.createdAtOf : Node → Option String
  | .mk _ _ _ _ c _ _ => c

/-- Field accessor for the updated_at key. -/
def Node.updatedAtOf : Node → Option String
  | .mk _ _ _ _ _ u _ => u

/-- Python truthiness of an optional string value: a missing value (None)
and the empty string are falsy, everything else truthy. -/
def pyTruthy : Option String → Bool
  | some s => s ≠ ""
  | none => false

/-- The Python expression a or b on optional strings under the truthiness
above: the left operand if truthy, otherwise the right operand as is. -/
def pyOrStr (a b : Option String) : Option String :=
  if pyTruthy a then a else b

/-- A row of the task_metadata table created by TaskDatabase.init_database
(src/src/database.py:18-46).  TEXT columns that can be NULL are Option
String; the JSON-text columns tags and dependencies are kept in parsed
list form (their text round-trips through json.dumps/json.loads); REAL
columns are embedded as rationals, since the merge logic only copies them;
the json_data blob is kept as the stored tree node (none standing for an
empty or NULL payload). -/
structure Row where
  id : String
  title : String
  description : String
  status : String
  priority : Int
  plannedStartTime : Option String
  plannedEndTime : Option String
  actualStartTime : Option String
  actualEndTime : Option String
  assignedTo : Option String
  createdBy : Option String
  tags : List String
  progress : Int
  estimatedHours : Option Rat
  actualHours : Option Rat
  dependencies : List String
  category : Option String
  notes : Option String
  createdAt : String
  updatedAt : String
  jsonData : Option Node

/-- The task_data dictionary accepted by TaskDatabase.create_or_update_task
and by the operation payloads of TaskManager: every key is optional; a
field set to none models a key absent from the dict. -/
structure TaskData where
  id : Option String := none
  title : Option String := none
  description : Option String := none
  status : Option String := none
  priority : Option Int := none
  plannedStartTime : Option String := none
  plannedEndTime : Option String := none
  actualStartTime : Option String := none
  actualEndTime : Option String := none
  assignedTo : Option String := none
  createdBy : Option String := none
  tags : Option (List String) := none
  progress : Option Int := none
  estimatedHours : Option Rat := none
  actualHours : Option Rat := none
  dependencies : Option (List String) := none
  category : Option String := none
  notes : Option String := none
  createdAt : Option String := none
  updatedAt : Option String := none

/-- The empty dictionary as task_data. -/
def TaskData.empty : TaskData := {}

/-- SELECT * FROM task_metadata WHERE id = ? (first matching row). -/
def findRow (db : List Row) (tid : String) : Option Row :=
  db.find? (fun r => r.id = tid)

/-- INSERT OR REPLACE keyed on the id primary key: replace the row with the
same id when one exists, otherwise append. -/
def insertOrReplace (db : List Row) (row : Row) : List Row :=
  if db.any (fun r => r.id = row.id) then
    db.map (fun r => if r.id = row.id then row else r)
  else db ++ [row]

/-- TaskDatabase.create_or_update_task (src/src/database.py:48-145).  The
row to write is looked up under task_data id or, failing a truthy value
there, the payload node's id.  If a row exists, each metadata column takes
the task_data value when the key is present and the stored value otherwise,
created_at is kept, updated_at is set to now, and the json_data blob is
replaced when the payload is non-empty.  Otherwise a fresh row is created,
with title/description/status/created_at falling back from task_data to the
payload node to a default, and the remaining columns defaulted as in the
source. -/
def createOrUpdateTask (db : List Row) (td : TaskData) (payload : Option Node)
    (now : String) : List Row :=
  let lookupId := pyOrStr td.id (payload.bind Node.idOf)
  let existing : Option Row :=
    if pyTruthy lookupId then findRow db (lookupId.getD "") else none
  match existing with
  | some ex =>
    let merged : Row := {
      id := lookupId.getD "",
      title := td.title.getD ex.title,
      description := td.description.getD ex.description,
      status := td.status.getD ex.status,
      priority := td.priority.getD ex.priority,
      plannedStartTime := td.plannedStartTime.or ex.plannedStartTime,
      plannedEndTime := td.plannedEndTime.or ex.plannedEndTime,
      actualStartTime := td.actualStartTime.or ex.actualStartTime,
      actualEndTime := td.actualEndTime.or ex.actualEndTime,
      assignedTo := td.assignedTo.or ex.assignedTo,
      createdBy := td.createdBy.or ex.createdBy,
      tags := td.tags.getD ex.tags,
      progress := td.progress.getD ex.progress,
      estimatedHours := td.estimatedHours.or ex.estimatedHours,
      actualHours := td.actualHours.or ex.actualHours,
      dependencies := td.dependencies.getD ex.dependencies,
      category := td.category.or ex.category,
      notes := td.notes.or ex.notes,
      createdAt := ex.createdAt,
      updatedAt := now,
      jsonData := match payload with | some n => some n | none => ex.jsonData }
    insertOrReplace db merged
  | none =>
    let taskId := (pyOrStr td.id (payload.bind Node.idOf)).getD ""
    let titleV := (pyOrStr td.title (payload.bind Node.titleOf)).getD ""
    let descriptionV := (pyOrStr td.description (payload.bind Node.descOf)).getD ""
    let statusV := (pyOrStr td.status (payload.bind Node.statusOf)).getD "pending"
    let createdAtV := (pyOrStr td.createdAt (payload.bind Node.createdAtOf)).getD now
    let merged : Row := {
      id := taskId,
      title := titleV,
      description := descriptionV,
      status := statusV,
      priority := td.priority.getD 1,
      plannedStartTime := td.plannedStartTime,
      plannedEndTime := td.plannedEndTime,
      actualStartTime := td.actualStartTime,
      actualEndTime := td.actualEndTime,
      assignedTo := td.assignedTo,
      createdBy := td.createdBy,
      tags := td.tags.getD [],
      progress := td.progress.getD 0,
      estimatedHours := td.estimatedHours,
      actualHours := td.actualHours,
      dependencies := td.dependencies.getD [],
      category := td.category,
      notes := td.notes,
      createdAt := createdAtV,
      updatedAt := td.updatedAt.getD now,
      jsonData := payload }
    insertOrReplace db merged

/-- TaskDatabase.delete_task (src/src/database.py:208-217): DELETE FROM
task_metadata WHERE id = ?. -/
def dbDeleteTask (db : List Row) (tid : String) : List Row :=
  db.filter (fun r => decide (r.id ≠ tid))

/-- Inclusion test of the extract_tasks walk inside
TaskDatabase.sync_from_task_tree (src/src/database.py:234): a node is
included when its id differs from the literal root OR its subtasks list is
non-empty (truthy), so a root that has subtasks IS included. -/
def syncIncluded (n : Node) : Bool :=
  decide (Node.idOf n ≠ some "root") || !(Node.subs n).isEmpty

mutual

/-- The recursive extract_tasks walk of TaskDatabase.sync_from_task_tree
(src/src/database.py:230-244), returning each included node together with
its parent annotation (set only when the parent id is truthy).  In the
source the annotation is written into the copied dict and thus only reaches
the opaque json_data blob of the mirror row; the embedding keeps it in the
returned pair and stores the bare node in the blob. -/
def extractTasks : Node → Option String → List (Node × Option String)
  | .mk i t d s ca ua subs, pid =>
    (if syncIncluded (.mk i t d s ca ua subs) then
      [(.mk i t d s ca ua subs, if pyTruthy pid then pid else none)]
     else []) ++ extractTasksList subs i

/-- Forest version of extractTasks, all children sharing one parent id. -/
def extractTasksList : List Node → Option String → List (Node × Option String)
  | [], _ => []
  | c :: cs, pid => extractTasks c pid ++ extractTasksList cs pid

end

/-- TaskDatabase.sync_from_task_tree (src/src/database.py:219-258): walk the
tree with extract_tasks and merge every collected node into the mirror via
create_or_update_task with an empty task_data dict and the node as payload. -/
def syncFromTaskTree (db : List Row) (tree : Node) (now : String) : List Row :=
  (extractTasks tree none).foldl
    (fun d t => createOrUpdateTask d TaskData.empty (some t.1) now) db

mutual

/-- Pre-order list of all nodes of a tree (specification helper used to
state which nodes a full-tree sync visits). -/
def allNodes : Node → List Node
  | .mk i t d s ca ua subs => .mk i t d s ca ua subs :: allNodesList subs

/-- Forest version of allNodes. -/
def allNodesList : List Node → List Node
  | [] => []
  | c :: cs => allNodes c ++ allNodesList cs

end

mutual

/-- TaskManager._find_task_by_id (src/src/task_manager.py:273-292):
depth-first search for the first node whose id equals task_id, the node
itself checked before its subtasks. -/
def findTaskById : Node → String → Option Node
  | .mk i t d s ca ua subs, tid =>
    if i = some tid then some (.mk i t d s ca ua subs)
    else findTaskByIdList subs tid

/-- Search of a subtask list, left to right. -/
def findTaskByIdList : List Node → String → Option Node
  | [], _ => none
  | c :: cs, tid =>
    match findTaskById c tid with
    | some r => some r
    | none => findTaskByIdList cs tid

end

/-- TaskManager._collect_all_task_ids (src/src/task_manager.py:316-329):
the pre-order id values with the falsy ones (missing or empty) filtered
out, exactly the list comprehension of the source applied to optIds. -/
def collectAllTaskIds (n : Node) : List String :=
  (optIds n).filterMap (fun o =>
    match o with
    | some s => if s = "" then none else some s
    | none => none)

mutual

/-- Functional rendering of the mutation performed by TaskManager._delete_task
lines 255-264: _find_parent_of_task locates the parent of the first
pre-order occurrence of task_id (the scan checks each node's own id before
descending into it), and that parent's subtasks list is filtered to drop
the children carrying task_id.  removeHere performs the same scan over the
children of the current node and applies the filter in place of the
aliasing mutation; the returned flag reports whether a parent was found,
which is exactly the condition under which the source's _find_parent_of_task
returns a node.  Children scanned before the match cannot carry task_id at
their top level (the scan would have stopped there), so filtering the
remainder of the list coincides with the source's filter of the full list. -/
def removeHere (tid : String) : Node → Node × Bool
  | .mk i t d s ca ua subs =>
    let r := removeScan tid subs
    (.mk i t d s ca ua r.1, r.2)

/-- Scan of a subtask list: on the first child whose id is task_id, drop
every child carrying task_id; otherwise recurse into the child, and on
success splice the rewritten child back; otherwise continue right. -/
def removeScan (tid : String) : List Node → List Node × Bool
  | [] => ([], false)
  | c :: cs =>
    if Node.idOf c = some tid then
      ((c :: cs).filter (fun x => decide (Node.idOf x ≠ some tid)), true)
    else
      let rc := removeHere tid c
      if rc.2 then (rc.1 :: cs, true)
      else
        let rcs := removeScan tid cs
        (c :: rcs.1, rcs.2)

end

mutual

/-- Functional rendering of mutation through the alias returned by
_find_task_by_id: rewrite the first pre-order node whose id is tid with f,
leaving everything else in place; the flag reports whether a node was
found. -/
def updateFirst (tid : String) (f : Node → Node) : Node → Node × Bool
  | .mk i t d s ca ua subs =>
    if i = some tid then (f (.mk i t d s ca ua subs), true)
    else
      let r := updateFirstList tid f subs
      (.mk i t d s ca ua r.1, r.2)

/-- List version of updateFirst. -/
def updateFirstList (tid : String) (f : Node → Node) : List Node → List Node × Bool
  | [] => ([], false)
  | c :: cs =>
    let rc := updateFirst tid f c
    if rc.2 then (rc.1 :: cs, true)
    else
      let rcs := updateFirstList tid f cs
      (c :: rcs.1, rcs.2)

end

/-- Result dictionary of a single task operation; keys that a given code
path does not set are none.  apply_operations later stamps the operation
key onto the inner result. -/
structure OpResult where
  operation : Option String := none
  success : Bool
  error : Option String := none
  taskId : Option String := none
  title : Option String := none
  updatedFields : Option (List String) := none
  deletedCount : Option Nat := none

/-- An element of the operations list handed to
TaskManager.apply_operations; each key is read with .get and so optional.
The task payload is restricted to the keys the task flow reads. -/
structure Operation where
  operation : Option String := none
  task : Option TaskData := none
  parentId : Option String := none

/-- View a tree node as a task_data dictionary: _add_task passes the new
node dict itself as the task_data argument of create_or_update_task.  The
node's keys map to the equally named columns; its subtasks key is not read
by the database layer. -/
def nodeAsTaskData (n : Node) : TaskData :=
  { id := Node.idOf n, title := Node.titleOf n, description := Node.descOf n,
    status := Node.statusOf n, createdAt := Node.createdAtOf n,
    updatedAt := Node.updatedAtOf n }

/-- TaskManager._add_task (src/src/task_manager.py:153-196): generate a
fresh UUID (consuming the generator even on failure, as the source calls
uuid.uuid4() before looking up the parent), build the complete task
structure with defaulted title/description/status and both timestamps set
to now, fail with Parent task not found when the parent id is absent,
otherwise append to the parent's subtasks and write the new task through to
the database. -/
def addTask (tree : Node) (db : List Row) (parentId : String) (td : TaskData)
    (gen : Nat → String) (k : Nat) (now : String) : OpResult × Node × List Row × Nat :=
  let newId := gen k
  let newTask : Node := .mk (some newId) (some (td.title.getD "Untitled"))
    (some (td.description.getD "")) (some (td.status.getD "pending"))
    (some now) (some now) []
  match findTaskById tree parentId with
  | none =>
    ({ success := false, error := some ("Parent task not found: " ++ parentId) },
      tree, db, k + 1)
  | some _ =>
    let tree' := (updateFirst parentId (fun n =>
      match n with
      | .mk i t d s ca ua subs => .mk i t d s ca ua (subs ++ [newTask])) tree).1
    let db' := createOrUpdateTask db (nodeAsTaskData newTask) (some newTask) now
    ({ success := true, taskId := some newId, title := some (td.title.getD "Untitled") },
      tree', db', k + 1)

/-- The list of updated fields collected by the loop of
TaskManager._update_task lines 220-224: the keys among title, description,
status present in task_data, in that order. -/
def updatedFieldsOf (td : TaskData) : List String :=
  (if td.title.isSome then ["title"] else []) ++
  (if td.description.isSome then ["description"] else []) ++
  (if td.status.isSome then ["status"] else [])

/-- The in-place field assignment of TaskManager._update_task on the found
task: overwrite each of title, description, status that is present in
task_data, and refresh updated_at exactly when at least one field was
updated. -/
def applyFields (td : TaskData) (now : String) : Node → Node
  | .mk i t d s ca ua subs =>
    .mk i (td.title.or t) (td.description.or d) (td.status.or s) ca
      (if updatedFieldsOf td ≠ [] then some now else ua) subs

/-- TaskManager._update_task (src/src/task_manager.py:198-235): fail when
task_data has no truthy id or the task is not found; otherwise overwrite
exactly the present fields among title/description/status on the found
task (any status string is accepted as is), refresh updated_at and sync the
task_data together with the mutated task to the database when at least one
field was present, and report the list of updated fields. -/
def updateTask (tree : Node) (db : List Row) (td : TaskData) (now : String) :
    OpResult × Node × List Row :=
  if pyTruthy td.id then
    let tid := td.id.getD ""
    match findTaskById tree tid with
    | none => ({ success := false, error := some ("Task not found: " ++ tid) }, tree, db)
    | some _ =>
      let fields := updatedFieldsOf td
      if fields = [] then
        ({ success := true, taskId := some tid, updatedFields := some [] }, tree, db)
      else
        let tree' := (updateFirst tid (applyFields td now) tree).1
        let db' :=
          match findTaskById tree' tid with
          | some updated => createOrUpdateTask db td (some updated) now
          | none => db
        ({ success := true, taskId := some tid, updatedFields := some fields }, tree', db')
  else ({ success := false, error := some "Task ID is required for update" }, tree, db)

/-- TaskManager._delete_task (src/src/task_manager.py:237-271): fail on a
falsy id, on the literal root, and when no parent holds the id (which in
the source is _find_parent_of_task returning None, i.e. the root itself
carries the id or the id is nowhere in the tree); otherwise drop the first
pre-order occurrence from its parent's subtasks, collect the pre-order ids
of the removed subtree and delete each of them from the database, and
report the number of collected ids. -/
def deleteTask (tree : Node) (db : List Row) (taskId : Option String) :
    OpResult × Node × List Row :=
  if pyTruthy taskId then
    let tid := taskId.getD ""
    if tid = "root" then
      ({ success := false, error := some "Cannot delete root task" }, tree, db)
    else if Node.idOf tree = some tid then
      ({ success := false, error := some ("Task not found: " ++ tid) }, tree, db)
    else
      let r := removeHere tid tree
      if r.2 then
        match findTaskById tree tid with
        | some nd =>
          let ids := collectAllTaskIds nd
          let db' := ids.foldl (fun d i => dbDeleteTask d i) db
          ({ success := true, taskId := some tid, deletedCount := some ids.length },
            r.1, db')
        | none =>
          ({ success := false, error := some ("Task not found: " ++ tid) }, tree, db)
      else ({ success := false, error := some ("Task not found: " ++ tid) }, tree, db)
  else ({ success := false, error := some "Task ID is required for delete" }, tree, db)

/-- Python str.lower, applied characterwise (the operation names compared
against are ASCII, where Char.toLower agrees with Python). -/
def pyLower (s : String) : String :=
  String.mk (s.data.map Char.toLower)

/-- TaskManager.apply_operations (src/src/task_manager.py:118-151): each
operation is dispatched on the lower-cased operation key (missing key
defaulting to the empty string), with the task payload defaulting to the
empty dict and parent_id to root; an unrecognised kind yields a per item
failure entry and touches nothing; every entry is stamped with the
operation kind and processing always continues with the next item.  The
try/except of the source is dead in this embedding since the embedded
operations are total. -/
def applyOperations (gen : Nat → String) (now : String) :
    List Operation → Node → List Row → Nat → List OpResult × Node × List Row × Nat
  | [], tree, db, k => ([], tree, db, k)
  | op :: rest, tree, db, k =>
    let opType := pyLower (op.operation.getD "")
    let td := op.task.getD TaskData.empty
    let pid := op.parentId.getD "root"
    let step : OpResult × Node × List Row × Nat :=
      if opType = "add" then
        let r := addTask tree db pid td gen k now
        ({ r.1 with operation := some opType }, r.2.1, r.2.2.1, r.2.2.2)
      else if opType = "update" then
        let r := updateTask tree db td now
        ({ r.1 with operation := some opType }, r.2.1, r.2.2, k)
      else if opType = "delete" then
        let r := deleteTask tree db td.id
        ({ r.1 with operation := some opType }, r.2.1, r.2.2, k)
      else
        ({ operation := some opType, success := false,
           error := some ("Unknown operation: " ++ opType) }, tree, db, k)
    let rest' := applyOperations gen now rest step.2.1 step.2.2.1 step.2.2.2
    (step.1 :: rest'.1, rest'.2)

/-- Status enumeration of src/cortexpropel/models.py (TaskStatus): the
todo / in_progress / done vocabulary of that variant. -/
inductive MStatus : Type where
  | todo
  | inProgress
  | done
deriving DecidableEq

/-- The pydantic Task of src/cortexpropel/models.py restricted to the
fields its update_progress method reads and writes: status, progress (the
0-100 integer of the model, validated non-negative by pydantic), sub_tasks
and updated_at. -/
inductive MTask : Type where
  | mk (status : MStatus) (progress : Nat) (subTasks : List MTask) (updatedAt : String)

/-- Accessor for the status field. -/
def MTask.status : MTask → MStatus
  | .mk s _ _ _ => s

/-- Accessor for the progress field. -/
def MTask.progress : MTask → Nat
  | .mk _ p _ _ => p

/-- Accessor for the sub_tasks field. -/
def MTask.subTasks : MTask → List MTask
  | .mk _ _ c _ => c

/-- Accessor for the updated_at field. -/
def MTask.updatedAt : MTask → String
  | .mk _ _ _ u => u

/-- Task.update_progress (src/cortexpropel/models.py:40-58): with no
sub-tasks the method returns immediately; otherwise progress becomes the
integer (floor) division of the sub-tasks' total progress by their count,
the status is derived from that new progress value (todo at 0, done at
100, in_progress otherwise), and updated_at is refreshed. -/
def MTask.updateProgress (t : MTask) (now : String) : MTask :=
  match t with
  | .mk s p subs ua =>
    if subs.isEmpty then .mk s p subs ua
    else
      let total := (subs.map MTask.progress).sum
      let newP := total / subs.length
      let newS : MStatus :=
        if newP = 0 then .todo else if newP = 100 then .done else .inProgress
      .mk newS newP subs now

/-- A concrete mirror row carrying an estimated_hours extension value. -/
def exRow : Row :=
  { id := uuidA, title := "Old", description := "", status := "pending", priority := 1,
    plannedStartTime := none, plannedEndTime := none, actualStartTime := none,
    actualEndTime := none, assignedTo := none, createdBy := none, tags := [],
    progress := 0, estimatedHours := some 5, actualHours := none, dependencies := [],
    category := none, notes := none, createdAt := "T0", updatedAt := "T0",
    jsonData := none }

/-- Incoming task_data carrying only an id, a title and a status. -/
def tdMerge : TaskData := { id := some uuidA, title := some "New", status := some "in_progress" }

/-- A tree with one child task used by the update instances. -/
def updTree : Node := rootWith [Node.mk (some uuidA) (some "Old") none (some "pending") none none []]

/-- An update payload carrying an unrecognised status string and a title. -/
def updTd : TaskData := { id := some uuidA, title := some "X", status := some "banana" }

/-- A tree whose child under root itself has one child, used by the delete
instances (the deleted node has exactly one descendant). -/
def delTree : Node := rootWith [Node.mk (some uuidA) (some "A") none none none none [leaf (some uuidB)]]

theorem processList_get (nt : List String) (gen : Nat → String) :
    ∀ (cs : List Node) (k i : Nat) (c : Node), cs[i]? = some c →
      ∃ j, (processList nt gen cs k).1[i]? = some ((processNode nt gen c j).1) := by
  intro cs
  induction cs with
  | nil => intro k i c h; simp at h
  | cons a as ih =>
    intro k i c h
    cases i with
    | zero =>
      simp at h
      subst h
      exact ⟨k, by simp [processList]⟩
    | succ i' =>
      simp at h
      obtain ⟨j, hj⟩ := ih (processNode nt gen a k).2 i' c h
      exact ⟨j, by simp [processList, hj]⟩

theorem processNode_subs (nt : List String) (gen : Nat → String) (n : Node) (k : Nat) :
    ∃ k', Node.subs ((processNode nt gen n k).1) = (processList nt gen (Node.subs n) k').1 := by
  cases n with
  | mk i t d s ca ua subs =>
    cases i with
    | none => exact ⟨k, by simp [processNode, Node.subs]⟩
    | some tid =>
      by_cases hc : tid ≠ "" ∧ tid ≠ "root" ∧ (tid ∈ nt ∨ isValidUuid tid = false)
      · exact ⟨k + 1, by simp [processNode, Node.subs, hc]⟩
      · exact ⟨k, by simp [processNode, Node.subs, hc]⟩

theorem processNode_idOf (nt : List String) (gen : Nat → String) (n : Node) (k : Nat) :
    Node.idOf ((processNode nt gen n k).1) = newIdOf nt gen k (Node.idOf n) := by
  cases n with
  | mk i t d s ca ua subs =>
    cases i with
    | none => simp [processNode, Node.idOf, newIdOf]
    | some tid =>
      by_cases hc : tid ≠ "" ∧ tid ≠ "root" ∧ (tid ∈ nt ∨ isValidUuid tid = false)
      · simp [processNode, Node.idOf, newIdOf, hc]
      · simp [processNode, Node.idOf, newIdOf, hc]

theorem processNode_path (nt : List String) (gen : Nat → String) :
    ∀ (p : List Nat) (n : Node) (k : Nat) (m : Node), getPath n p = some m →
      ∃ j m', getPath ((processNode nt gen n k).1) p = some m' ∧
        Node.idOf m' = newIdOf nt gen j (Node.idOf m) := by
  intro p
  induction p with
  | nil =>
    intro n k m h
    simp [getPath] at h
    subst h
    exact ⟨k, (processNode nt gen n k).1, by simp [getPath], processNode_idOf nt gen n k⟩
  | cons i p' ih =>
    intro n k m h
    obtain ⟨k', hk'⟩ := processNode_subs nt gen n k
    simp only [getPath] at h
    cases hg : (Node.subs n)[i]? with
    | none => rw [hg] at h; simp at h
    | some c =>
      rw [hg] at h
      obtain ⟨j0, hj0⟩ := processList_get nt gen (Node.subs n) k' i c hg
      obtain ⟨j, m', hm', hid⟩ := ih c j0 m h
      refine ⟨j, m', ?_, hid⟩
      simp only [getPath, hk', hj0]
      exact hm'

theorem extractIds_of_get :
    ∀ (cs : List Node) (i : Nat) (c : Node), cs[i]? = some c →
      ∀ x, x ∈ extractIds c → x ∈ extractIdsList cs := by
  intro cs
  induction cs with
  | nil => intro i c h; simp at h
  | cons a as ih =>
    intro i c h x hx
    cases i with
    | zero =>
      simp at h
      subst h
      simp [extractIdsList]
      exact Or.inl hx
    | succ i' =>
      simp at h
      simp [extractIdsList]
      exact Or.inr (ih i' c h x hx)

theorem getPath_id_mem :
    ∀ (p : List Nat) (n m : Node) (t : String), getPath n p = some m →
      Node.idOf m = some t → t ≠ "root" → t ∈ extractIds n := by
  intro p
  induction p with
  | nil =>
    intro n m t h hid hr
    simp [getPath] at h
    subst h
    cases n with
    | mk i ti d s ca ua subs =>
      simp [Node.idOf] at hid
      subst hid
      simp [extractIds, hr]
  | cons i p' ih =>
    intro n m t h hid hr
    simp only [getPath] at h
    cases hg : (Node.subs n)[i]? with
    | none => rw [hg] at h; simp at h
    | some c =>
      rw [hg] at h
      have hmem := extractIds_of_get (Node.subs n) i c hg t (ih c m t h hid hr)
      cases n with
      | mk ni ti d s ca ua subs =>
        simp [Node.subs] at hmem
        simp [extractIds]
        right
        exact hmem

theorem mem_identifyNewTasks (cur : Node) (dbIds : List String) (new : Node) (t : String) :
    t ∈ identifyNewTasks cur dbIds new ↔
      (t ∈ extractIds new ∧ ¬ (t ∈ extractIds cur ∨ (t ∈ dbIds ∧ t ≠ "root"))) ∨
      (t ∈ extractIds new ∧ isValidUuid t = false) := by
  simp [identifyNewTasks, List.mem_filter, List.mem_append]
  tauto

theorem uuidShaped_ne_empty {t : String} (h : uuidShaped t = true) : t ≠ "" := by
  intro he
  subst he
  exact absurd h (by decide)

theorem uuidShaped_ne_root {t : String} (h : uuidShaped t = true) : t ≠ "root" := by
  intro he
  subst he
  exact absurd h (by decide)

theorem isValidUuid_of_ne {t : String} (h1 : t ≠ "") (h2 : t ≠ "root") :
    isValidUuid t = uuidShaped t := by
  simp [isValidUuid, h1, h2]

theorem kept_of_valid_known (cur : Node) (dbIds : List String) (gen : Nat → String)
    (new : Node) (p : List Nat) (m : Node) (tid : String)
    (hpath : getPath new p = some m) (hid : Node.idOf m = some tid)
    (hv : uuidShaped tid = true) (hk : tid ∈ extractIds cur ∨ tid ∈ dbIds) :
    ∃ m', getPath (assignUuidsToNewTasks cur dbIds gen new) p = some m' ∧
      Node.idOf m' = some tid := by
  have hne := uuidShaped_ne_empty hv
  have hnr := uuidShaped_ne_root hv
  have hnin : tid ∉ identifyNewTasks cur dbIds new := by
    rw [mem_identifyNewTasks]
    push_neg
    refine ⟨fun _ => ?_, fun _ => ?_⟩
    · rcases hk with h | h
      · exact Or.inl h
      · exact Or.inr ⟨h, hnr⟩
    · rw [isValidUuid_of_ne hne hnr, hv]
      simp
  obtain ⟨j, m', hm', hidm⟩ :=
    processNode_path (identifyNewTasks cur dbIds new) gen p new 0 m hpath
  refine ⟨m', hm', ?_⟩
  rw [hidm, hid]
  simp [newIdOf, hnin, isValidUuid_of_ne hne hnr, hv]

/-- C1 (amended).  Identity resolution via
TaskManager._assign_uuids_to_new_tasks with _identify_new_tasks: a non-root
node of the proposed tree whose id is non-empty and not the literal root
keeps its id exactly when the id is syntactically a valid UUID and already
occurs in the prior tree or in the database mirror; and every node present
in both the prior tree and the proposed tree under the same UUID-shaped id
keeps exactly that id.  (The claim as frozen omits the non-empty/non-root
side condition; the counterexample below shows it is needed.)  The
freshness hypothesis states that generated UUIDs do not collide with ids of
the proposed tree, which holds of uuid.uuid4 output up to the randomness
the source relies on. -/
theorem c1_id_kept_iff_valid_and_known :
    (∀ (cur : Node) (dbIds : List String) (gen : Nat → String) (new : Node)
      (p : List Nat) (m : Node) (tid : String),
      getPath new p = some m → Node.idOf m = some tid →
      tid ≠ "" → tid ≠ "root" → (∀ k, gen k ∉ extractIds new) →
      ((∃ m', getPath (assignUuidsToNewTasks cur dbIds gen new) p = some m' ∧
          Node.idOf m' = some tid) ↔
        (uuidShaped tid = true ∧ (tid ∈ extractIds cur ∨ tid ∈ dbIds)))) ∧
    (∀ (cur : Node) (dbIds : List String) (gen : Nat → String) (new : Node)
      (p q : List Nat) (m mc : Node) (tid : String),
      getPath new p = some m → Node.idOf m = some tid →
      getPath cur q = some mc → Node.idOf mc = some tid → uuidShaped tid = true →
      ∃ m', getPath (assignUuidsToNewTasks cur dbIds gen new) p = some m' ∧
        Node.idOf m' = some tid) := by
  constructor
  · intro cur dbIds gen new p m tid hpath hid hne hnr hfresh
    have hmemnew : tid ∈ extractIds new := getPath_id_mem p new m tid hpath hid hnr
    constructor
    · rintro ⟨m', hm', hidmA⟩
      obtain ⟨j, m'', hm'', hidm''⟩ :=
        processNode_path (identifyNewTasks cur dbIds new) gen p new 0 m hpath
      have hmm : m' = m'' := by
        have := hm'.symm.trans hm''
        exact Option.some.inj this
      subst hmm
      rw [hidmA, hid] at hidm''
      by_cases hg : tid ≠ "" ∧ tid ≠ "root" ∧
          (tid ∈ identifyNewTasks cur dbIds new ∨ isValidUuid tid = false)
      · exfalso
        simp only [newIdOf] at hidm''
        rw [if_pos hg] at hidm''
        have : tid = gen j := Option.some.inj hidm''
        exact hfresh j (this ▸ hmemnew)
      · push_neg at hg
        have h3 := hg hne hnr
        push_neg at h3
        obtain ⟨hnin, hval⟩ := h3
        have hvalid : isValidUuid tid = true := by
          cases hb : isValidUuid tid
          · exact absurd hb hval
          · rfl
        rw [isValidUuid_of_ne hne hnr] at hvalid
        refine ⟨hvalid, ?_⟩
        rw [mem_identifyNewTasks] at hnin
        push_neg at hnin
        have := hnin.1 hmemnew
        rcases this with h | h
        · exact Or.inl h
        · exact Or.inr h.1
    · rintro ⟨hv, hk⟩
      exact kept_of_valid_known cur dbIds gen new p m tid hpath hid hv hk
  · intro cur dbIds gen new p q m mc tid hpath hid hqc hidc hv
    have hnr := uuidShaped_ne_root hv
    have hk : tid ∈ extractIds cur := getPath_id_mem q cur mc tid hqc hidc hnr
    exact kept_of_valid_known cur dbIds gen new p m tid hpath hid hv (Or.inl hk)



/-- Witness for c1_id_kept_iff_valid_and_known at a concrete input: a
UUID-shaped id present in the prior tree, which resolution keeps. -/
theorem c1_id_kept_iff_valid_and_known_witness :
    (∃ m', getPath (assignUuidsToNewTasks (rootWith [leaf (some uuidA)]) [] genB
        (rootWith [leaf (some uuidA)])) [0] = some m' ∧ Node.idOf m' = some uuidA) ↔
      (uuidShaped uuidA = true ∧
        (uuidA ∈ extractIds (rootWith [leaf (some uuidA)]) ∨ uuidA ∈ ([] : List String))) :=
  c1_id_kept_iff_valid_and_known.1 (rootWith [leaf (some uuidA)]) [] genB
    (rootWith [leaf (some uuidA)]) [0] (leaf (some uuidA)) uuidA (by rfl) (by rfl)
    (by decide) (by decide)
    (by intro k
        show uuidB ∉ extractIds (rootWith [leaf (some uuidA)])
        decide)

/-- Counterexample to C1 as frozen: in a proposed tree whose only non-root
node carries the literal id root, resolution keeps that id unchanged even
though it is neither a syntactically valid UUID nor present in the prior
tree or mirror (both empty here), refuting the only-if direction of the
claimed equivalence.  (A node with an empty id is kept as well, see the C3
counterexample.) -/
theorem c1_counterexample :
    getPath (assignUuidsToNewTasks rootOnly [] genB (rootWith [leaf (some "root")])) [0]
        = some (leaf (some "root")) ∧
      uuidShaped "root" = false ∧ extractIds rootOnly = [] :=
  ⟨by rfl, by decide, by rfl⟩

/-- C2 (amended): a proposed non-root node whose id is a syntactically valid
UUID but occurs neither in the prior tree nor in the database mirror is
classified new by _identify_new_tasks, and _process_node therefore replaces
its id with a freshly generated UUID; under the freshness of uuid.uuid4 the
resolved id differs from the arriving one.  (The claim as frozen asserts
the identifier is left unchanged; the counterexample shows it is not.) -/
theorem c2_new_uuid_id_replaced
    (cur : Node) (dbIds : List String) (gen : Nat → String) (new : Node)
    (p : List Nat) (m : Node) (tid : String)
    (hpath : getPath new p = some m) (hid : Node.idOf m = some tid)
    (hv : uuidShaped tid = true)
    (hnc : tid ∉ extractIds cur) (hnd : tid ∉ dbIds) :
    ∃ j m', getPath (assignUuidsToNewTasks cur dbIds gen new) p = some m' ∧
      Node.idOf m' = some (gen j) ∧
      ((∀ k, gen k ∉ extractIds new) → Node.idOf m' ≠ some tid) := by
  have hne := uuidShaped_ne_empty hv
  have hnr := uuidShaped_ne_root hv
  have hmemnew : tid ∈ extractIds new := getPath_id_mem p new m tid hpath hid hnr
  have hin : tid ∈ identifyNewTasks cur dbIds new := by
    rw [mem_identifyNewTasks]
    left
    refine ⟨hmemnew, ?_⟩
    rintro (h | h)
    · exact hnc h
    · exact hnd h.1
  obtain ⟨j, m', hm', hidm⟩ :=
    processNode_path (identifyNewTasks cur dbIds new) gen p new 0 m hpath
  have hguard : tid ≠ "" ∧ tid ≠ "root" ∧
      (tid ∈ identifyNewTasks cur dbIds new ∨ isValidUuid tid = false) :=
    ⟨hne, hnr, Or.inl hin⟩
  have hval : Node.idOf m' = some (gen j) := by
    rw [hidm, hid]
    simp only [newIdOf]
    rw [if_pos hguard]
  refine ⟨j, m', hm', hval, ?_⟩
  intro hfresh heq
  rw [hval] at heq
  have hgj : gen j = tid := Option.some.inj heq
  exact hfresh j (hgj ▸ hmemnew)

/-- Witness for c2_new_uuid_id_replaced at a concrete input. -/
theorem c2_new_uuid_id_replaced_witness :
    ∃ j m', getPath (assignUuidsToNewTasks rootOnly [] genB (rootWith [leaf (some uuidA)]))
        [0] = some m' ∧ Node.idOf m' = some (genB j) ∧
      ((∀ k, genB k ∉ extractIds (rootWith [leaf (some uuidA)])) →
        Node.idOf m' ≠ some uuidA) :=
  c2_new_uuid_id_replaced rootOnly [] genB (rootWith [leaf (some uuidA)]) [0]
    (leaf (some uuidA)) uuidA (by rfl) (by rfl) (by decide) (by decide) (by decide)

/-- Counterexample to C2 as frozen: starting from a bare prior tree and an
empty mirror, a proposed child arriving with the (valid, unknown) UUID
uuidA is rewritten to the freshly generated uuidB rather than kept. -/
theorem c2_counterexample :
    getPath (assignUuidsToNewTasks rootOnly [] genB (rootWith [leaf (some uuidA)])) [0]
        = some (leaf (some uuidB)) ∧ uuidB ≠ uuidA ∧ uuidShaped uuidA = true :=
  ⟨by rfl, by decide, by decide⟩

/-- C3 (amended): a proposed node whose id key is missing or empty is
skipped by the truthiness guard of _process_node and keeps its missing or
empty id; no fresh UUID is assigned.  (The claim as frozen asserts that
such a node is treated like an invalid UUID and forces generation; the
counterexample shows the node is left untouched instead.) -/
theorem c3_empty_or_missing_id_kept
    (cur : Node) (dbIds : List String) (gen : Nat → String) (new : Node)
    (p : List Nat) (m : Node)
    (hpath : getPath new p = some m)
    (hid : Node.idOf m = none ∨ Node.idOf m = some "") :
    ∃ m', getPath (assignUuidsToNewTasks cur dbIds gen new) p = some m' ∧
      Node.idOf m' = Node.idOf m := by
  obtain ⟨j, m', hm', hidm⟩ :=
    processNode_path (identifyNewTasks cur dbIds new) gen p new 0 m hpath
  refine ⟨m', hm', ?_⟩
  rw [hidm]
  rcases hid with h | h <;> rw [h] <;> simp [newIdOf]

/-- Witness for c3_empty_or_missing_id_kept at a concrete input. -/
theorem c3_empty_or_missing_id_kept_witness :
    ∃ m', getPath (assignUuidsToNewTasks rootOnly [] genB (rootWith [leaf none])) [0]
        = some m' ∧ Node.idOf m' = Node.idOf (leaf none) :=
  c3_empty_or_missing_id_kept rootOnly [] genB (rootWith [leaf none]) [0] (leaf none)
    (by rfl) (Or.inl (by rfl))

/-- Counterexample to C3 as frozen: a proposed child with an empty id keeps
the empty id after resolution; no freshly generated UUID is assigned to it. -/
theorem c3_counterexample :
    getPath (assignUuidsToNewTasks rootOnly [] genB (rootWith [leaf (some "")])) [0]
        = some (leaf (some "")) ∧ uuidShaped "" = false :=
  ⟨by rfl, by decide⟩

/-- C4: the identity resolver never renames the root: a proposed tree whose
top node carries the id root resolves to a tree whose top node still
carries the id root; and _delete_task on the literal root fails with the
Cannot delete root task error, returning the tree and the database mirror
unchanged. -/
theorem c4_root_immutability :
    (∀ (cur : Node) (dbIds : List String) (gen : Nat → String) (new : Node),
      Node.idOf new = some "root" →
      Node.idOf (assignUuidsToNewTasks cur dbIds gen new) = some "root") ∧
    (∀ (tree : Node) (db : List Row),
      deleteTask tree db (some "root") =
        ({ success := false, error := some "Cannot delete root task" }, tree, db)) := by
  constructor
  · intro cur dbIds gen new hroot
    unfold assignUuidsToNewTasks
    rw [processNode_idOf, hroot]
    simp [newIdOf]
  · intro tree db
    rfl

/-- Witness for c4_root_immutability at concrete inputs. -/
theorem c4_root_immutability_witness :
    Node.idOf (assignUuidsToNewTasks rootOnly [] genB rootOnly) = some "root" ∧
    deleteTask rootOnly [] (some "root") =
      ({ success := false, error := some "Cannot delete root task" }, rootOnly, []) :=
  ⟨c4_root_immutability.1 rootOnly [] genB rootOnly (by rfl),
   c4_root_immutability.2 rootOnly []⟩

/-- C7 (amended): for a task with a non-empty sub-task list,
Task.update_progress sets progress to the truncating integer mean of the
direct sub-tasks' progress values, refreshes updated_at, and derives the
status from the resulting mean: todo at mean 0, done at mean 100,
in_progress otherwise.  For children at 0, 50 and 100 this yields 50 and
in_progress, as in the claim's example; but the status is a function of
the computed mean, not of the children's statuses as the frozen claim
states (see the counterexample). -/
theorem c7_rollup_mean
    (s : MStatus) (p : Nat) (subs : List MTask) (ua now : String)
    (h : subs ≠ []) :
    (MTask.updateProgress (.mk s p subs ua) now).progress
        = (subs.map MTask.progress).sum / subs.length ∧
    (MTask.updateProgress (.mk s p subs ua) now).status
        = (if (subs.map MTask.progress).sum / subs.length = 0 then MStatus.todo
           else if (subs.map MTask.progress).sum / subs.length = 100 then MStatus.done
           else MStatus.inProgress) ∧
    (MTask.updateProgress (.mk s p subs ua) now).updatedAt = now := by
  have hne : subs.isEmpty = false := by
    cases subs with
    | nil => exact absurd rfl h
    | cons a as => rfl
  refine ⟨?_, ?_, ?_⟩ <;>
    simp [MTask.updateProgress, hne, MTask.progress, MTask.status, MTask.updatedAt]

/-- Witness for c7_rollup_mean on the claim's example children 0, 50, 100:
the parent's progress becomes 50 and its status in_progress. -/
theorem c7_rollup_mean_witness :
    (MTask.updateProgress (.mk .todo 0
        [.mk .todo 0 [] "t", .mk .inProgress 50 [] "t", .mk .done 100 [] "t"] "t") "T").progress
      = ([MTask.mk .todo 0 [] "t", .mk .inProgress 50 [] "t", .mk .done 100 [] "t"].map
          MTask.progress).sum
        / [MTask.mk .todo 0 [] "t", .mk .inProgress 50 [] "t", .mk .done 100 [] "t"].length ∧
    (MTask.updateProgress (.mk .todo 0
        [.mk .todo 0 [] "t", .mk .inProgress 50 [] "t", .mk .done 100 [] "t"] "t") "T").status
      = (if ([MTask.mk .todo 0 [] "t", .mk .inProgress 50 [] "t", .mk .done 100 [] "t"].map
            MTask.progress).sum
          / [MTask.mk .todo 0 [] "t", .mk .inProgress 50 [] "t", .mk .done 100 [] "t"].length = 0
         then MStatus.todo
         else if ([MTask.mk .todo 0 [] "t", .mk .inProgress 50 [] "t",
              .mk .done 100 [] "t"].map MTask.progress).sum
            / [MTask.mk .todo 0 [] "t", .mk .inProgress 50 [] "t",
              .mk .done 100 [] "t"].length = 100
         then MStatus.done else MStatus.inProgress) ∧
    (MTask.updateProgress (.mk .todo 0
        [.mk .todo 0 [] "t", .mk .inProgress 50 [] "t", .mk .done 100 [] "t"] "t") "T").updatedAt
      = "T" :=
  c7_rollup_mean .todo 0
    [.mk .todo 0 [] "t", .mk .inProgress 50 [] "t", .mk .done 100 [] "t"] "t" "T"
    (List.cons_ne_nil _ _)

/-- Counterexample to C7 as frozen: a parent whose single sub-task has
status done but progress 0 must, per the claim, become completed (all
children completed); Task.update_progress instead computes mean progress 0
and sets the status to todo. -/
theorem c7_counterexample :
    (MTask.updateProgress (.mk .inProgress 50 [.mk .done 0 [] "t0"] "t0") "t1").status
        = MStatus.todo ∧ MStatus.todo ≠ MStatus.done :=
  ⟨by rfl, by decide⟩

/-- C10 (amended): an operation whose operation key does not lower-case to
add, update or delete (including the query kind admitted by the LLM
response contract) produces a per-item failure entry whose error text is
Unknown operation followed by the lower-cased kind, leaves the tree, the
database and the generator counter untouched, and the remaining operations
of the batch are applied exactly as they would have been without it.  (The
frozen claim keys the condition on the raw operation string; the
counterexample shows dispatch is on the lower-cased string, which also
appears in the recorded entry.) -/
theorem c10_unknown_operation
    (gen : Nat → String) (now : String) (op : Operation) (rest : List Operation)
    (tree : Node) (db : List Row) (k : Nat)
    (h : pyLower (op.operation.getD "") ∉ (["add", "update", "delete"] : List String)) :
    applyOperations gen now (op :: rest) tree db k =
      (({ operation := some (pyLower (op.operation.getD "")), success := false,
          error := some ("Unknown operation: " ++ pyLower (op.operation.getD "")) } : OpResult)
          :: (applyOperations gen now rest tree db k).1,
        (applyOperations gen now rest tree db k).2) := by
  have h1 : ¬ (pyLower (op.operation.getD "") = "add") := fun hc => h (by rw [hc]; simp)
  have h2 : ¬ (pyLower (op.operation.getD "") = "update") := fun hc => h (by rw [hc]; simp)
  have h3 : ¬ (pyLower (op.operation.getD "") = "delete") := fun hc => h (by rw [hc]; simp)
  simp only [applyOperations]
  rw [if_neg h1, if_neg h2, if_neg h3]

/-- Witness for c10_unknown_operation on a query operation against the
bare root tree. -/
theorem c10_unknown_operation_witness :
    applyOperations genB "T" [{ operation := some "query" }] rootOnly [] 0 =
      (({ operation := some "query", success := false,
          error := some "Unknown operation: query" } : OpResult) :: ([] : List OpResult),
        rootOnly, ([] : List Row), 0) :=
  c10_unknown_operation genB "T" { operation := some "query" } [] rootOnly [] 0 (by decide)

/-- Counterexample to C10 as frozen: the operation string Add differs from
add, update and delete, yet apply_operations lower-cases it and performs an
add: the entry reports success and the tree gains a child, instead of the
claimed Unknown operation failure with the tree left unchanged. -/
theorem c10_counterexample :
    ((applyOperations genB "T" [{ operation := some "Add", task := some { title := some "X" } }]
        rootOnly [] 0).1.map OpResult.success = [true]) ∧
    ("Add" ∉ (["add", "update", "delete"] : List String)) ∧
    ((Node.subs (applyOperations genB "T"
        [{ operation := some "Add", task := some { title := some "X" } }]
        rootOnly [] 0).2.1).length = 1) := by
  refine ⟨?_, ?_, ?_⟩
  · rfl
  · decide
  · rfl

theorem findRow_map_replace (row : Row) :
    ∀ (db : List Row), db.any (fun r => r.id = row.id) = true →
      findRow (db.map (fun r => if r.id = row.id then row else r)) row.id = some row := by
  intro db
  induction db with
  | nil => intro h; simp at h
  | cons a as ih =>
    intro h
    simp only [List.map_cons]
    by_cases ha : a.id = row.id
    · rw [if_pos ha]
      simp [findRow, List.find?]
    · rw [if_neg ha]
      have h' : as.any (fun r => r.id = row.id) = true := by
        simp only [List.any_cons, Bool.or_eq_true, decide_eq_true_eq] at h
        rcases h with h | h
        · exact absurd h ha
        · exact h
      have hrec := ih h'
      simp only [findRow, List.find?] at hrec ⊢
      rw [show (decide (a.id = row.id)) = false from by simp [ha]]
      exact hrec

theorem findRow_append_self (row : Row) :
    ∀ (db : List Row), db.any (fun r => r.id = row.id) = false →
      findRow (db ++ [row]) row.id = some row := by
  intro db
  induction db with
  | nil => intro _; simp [findRow, List.find?]
  | cons a as ih =>
    intro h
    simp only [List.any_cons, Bool.or_eq_false_iff, decide_eq_false_iff_not] at h
    obtain ⟨ha, has⟩ := h
    have hrec := ih (by simpa using has)
    simp only [List.cons_append, findRow, List.find?] at hrec ⊢
    rw [show (decide (a.id = row.id)) = false from by simp [ha]]
    exact hrec

theorem findRow_insertOrReplace (db : List Row) (row : Row) :
    findRow (insertOrReplace db row) row.id = some row := by
  unfold insertOrReplace
  by_cases h : db.any (fun r => r.id = row.id) = true
  · rw [if_pos h]
    exact findRow_map_replace row db h
  · rw [if_neg h]
    exact findRow_append_self row db (by simpa using h)

/-- C8: TaskDatabase.create_or_update_task against an existing mirror row:
every metadata column takes the incoming task_data value exactly when that
key is present and keeps its stored value otherwise (in particular a stored
estimated_hours survives an update carrying only title and status),
created_at is kept, updated_at is refreshed to now, and the json_data blob
is replaced only by a non-empty payload. -/
theorem c8_merge_nondestructive
    (db : List Row) (td : TaskData) (payload : Option Node) (now : String)
    (tid : String) (ex : Row)
    (hta : pyOrStr td.id (payload.bind Node.idOf) = some tid) (htr : tid ≠ "")
    (hex : findRow db tid = some ex) :
    ∃ row', findRow (createOrUpdateTask db td payload now) tid = some row' ∧
      row'.title = td.title.getD ex.title ∧
      row'.description = td.description.getD ex.description ∧
      row'.status = td.status.getD ex.status ∧
      row'.priority = td.priority.getD ex.priority ∧
      row'.plannedStartTime = td.plannedStartTime.or ex.plannedStartTime ∧
      row'.plannedEndTime = td.plannedEndTime.or ex.plannedEndTime ∧
      row'.actualStartTime = td.actualStartTime.or ex.actualStartTime ∧
      row'.actualEndTime = td.actualEndTime.or ex.actualEndTime ∧
      row'.assignedTo = td.assignedTo.or ex.assignedTo ∧
      row'.createdBy = td.createdBy.or ex.createdBy ∧
      row'.tags = td.tags.getD ex.tags ∧
      row'.progress = td.progress.getD ex.progress ∧
      row'.estimatedHours = td.estimatedHours.or ex.estimatedHours ∧
      row'.actualHours = td.actualHours.or ex.actualHours ∧
      row'.dependencies = td.dependencies.getD ex.dependencies ∧
      row'.category = td.category.or ex.category ∧
      row'.notes = td.notes.or ex.notes ∧
      row'.createdAt = ex.createdAt ∧
      row'.updatedAt = now ∧
      row'.jsonData = payload.or ex.jsonData := by
  have key : createOrUpdateTask db td payload now = insertOrReplace db
      { id := tid,
        title := td.title.getD ex.title,
        description := td.description.getD ex.description,
        status := td.status.getD ex.status,
        priority := td.priority.getD ex.priority,
        plannedStartTime := td.plannedStartTime.or ex.plannedStartTime,
        plannedEndTime := td.plannedEndTime.or ex.plannedEndTime,
        actualStartTime := td.actualStartTime.or ex.actualStartTime,
        actualEndTime := td.actualEndTime.or ex.actualEndTime,
        assignedTo := td.assignedTo.or ex.assignedTo,
        createdBy := td.createdBy.or ex.createdBy,
        tags := td.tags.getD ex.tags,
        progress := td.progress.getD ex.progress,
        estimatedHours := td.estimatedHours.or ex.estimatedHours,
        actualHours := td.actualHours.or ex.actualHours,
        dependencies := td.dependencies.getD ex.dependencies,
        category := td.category.or ex.category,
        notes := td.notes.or ex.notes,
        createdAt := ex.createdAt,
        updatedAt := now,
        jsonData := payload.or ex.jsonData } := by
    simp only [createOrUpdateTask, hta, pyTruthy, ne_eq, htr, not_false_eq_true,
      decide_True, if_true, Option.getD_some, hex]
    cases payload <;> rfl
  rw [key]
  exact ⟨_, findRow_insertOrReplace db _, rfl, rfl, rfl, rfl, rfl, rfl, rfl, rfl, rfl,
    rfl, rfl, rfl, rfl, rfl, rfl, rfl, rfl, rfl, rfl, rfl⟩


/-- Witness for c8_merge_nondestructive: merging incoming data that carries
only id, title and status into a row holding estimated_hours 5 overwrites
title and status, refreshes updated_at, and leaves estimated_hours and
every other absent field at its stored value. -/
theorem c8_merge_nondestructive_witness :
    ∃ row', findRow (createOrUpdateTask [exRow] tdMerge none "T1") uuidA = some row' ∧
      row'.title = "New" ∧
      row'.description = "" ∧
      row'.status = "in_progress" ∧
      row'.priority = 1 ∧
      row'.plannedStartTime = none ∧
      row'.plannedEndTime = none ∧
      row'.actualStartTime = none ∧
      row'.actualEndTime = none ∧
      row'.assignedTo = none ∧
      row'.createdBy = none ∧
      row'.tags = ([] : List String) ∧
      row'.progress = 0 ∧
      row'.estimatedHours = some 5 ∧
      row'.actualHours = none ∧
      row'.dependencies = ([] : List String) ∧
      row'.category = none ∧
      row'.notes = none ∧
      row'.createdAt = "T0" ∧
      row'.updatedAt = "T1" ∧
      row'.jsonData = none :=
  c8_merge_nondestructive [exRow] tdMerge none "T1" uuidA exRow (by rfl) (by decide) (by rfl)

/-- Strong induction over the nested tree type: to prove a property of
every node it suffices to prove it for a node given it for all direct
children. -/
theorem Node.strongInduction (P : Node → Prop)
    (h : ∀ i t d s ca ua subs, (∀ c ∈ subs, P c) → P (.mk i t d s ca ua subs)) :
    ∀ n, P n := by
  have key : ∀ (N : Nat) (n : Node), sizeOf n ≤ N → P n := by
    intro N
    induction N with
    | zero =>
      intro n hn
      cases n with
      | mk i t d s ca ua subs => simp at hn
    | succ N ih =>
      intro n hn
      cases n with
      | mk i t d s ca ua subs =>
        apply h
        intro c hc
        apply ih
        have h1 : sizeOf c < sizeOf subs := List.sizeOf_lt_of_mem hc
        have h2 : sizeOf subs < sizeOf (Node.mk i t d s ca ua subs) := by
          simp
        omega
  intro n
  exact key (sizeOf n) n (le_refl _)


/-- C9 (amended): the node walk of a full-tree sync collects, in pre-order,
exactly the nodes whose id differs from the literal root or whose subtasks
list is non-empty.  A childless root is therefore the only node a sync
skips: a root that has subtasks is itself merged and receives a mirror row.
(The frozen claim says the sync excludes the root always; the
counterexample shows a root with two children is synced and the mirror
holds 3 rows, root included.) -/
theorem c9_sync_walk_nodes :
    ∀ (n : Node) (pid : Option String),
      (extractTasks n pid).map Prod.fst = (allNodes n).filter syncIncluded := by
  intro n
  refine Node.strongInduction
    (fun n => ∀ pid, (extractTasks n pid).map Prod.fst = (allNodes n).filter syncIncluded)
    ?_ n
  intro i t d s ca ua subs ih pid
  have hlist : ∀ (cs : List Node),
      (∀ c ∈ cs, ∀ pid', (extractTasks c pid').map Prod.fst = (allNodes c).filter syncIncluded) →
      ∀ pid', (extractTasksList cs pid').map Prod.fst = (allNodesList cs).filter syncIncluded := by
    intro cs
    induction cs with
    | nil => intro _ pid'; simp [extractTasksList, allNodesList]
    | cons c cs ihl =>
      intro hcs pid'
      simp only [extractTasksList, allNodesList, List.map_append, List.filter_append]
      rw [hcs c (by simp) pid', ihl (fun x hx => hcs x (by simp [hx])) pid']
  simp only [extractTasks, allNodes]
  by_cases hg : syncIncluded (.mk i t d s ca ua subs) = true
  · simp only [hg, if_true, List.map_append, List.map_cons, List.map_nil, List.filter_cons,
      List.nil_append]
    rw [hlist subs ih i]
    simp
  · have hg' : syncIncluded (Node.mk i t d s ca ua subs) = false := by
      rw [Bool.not_eq_true] at hg
      exact hg
    simp only [hg', if_false, Bool.false_eq_true, List.filter_cons, List.nil_append,
      List.map_append, List.map_nil]
    rw [hlist subs ih i]

/-- Counterexample to C9 as frozen: the full-tree sync of a root with two
children merges the root as well, because its subtasks list is truthy: the
mirror ends up with 3 rows, one of them keyed root, not the claimed 2 with
root excluded. -/
theorem c9_counterexample :
    (syncFromTaskTree [] (rootWith [leaf (some uuidA), leaf (some uuidB)]) "T").length = 3 ∧
    (findRow (syncFromTaskTree [] (rootWith [leaf (some uuidA), leaf (some uuidB)]) "T")
        "root").isSome = true :=
  ⟨by rfl, by rfl⟩

/-- A node whose id is tid is returned by _find_task_by_id immediately. -/
theorem findTaskById_of_id {m : Node} {tid : String} (hid : Node.idOf m = some tid) :
    findTaskById m tid = some m := by
  cases m with
  | mk i t d s ca ua subs =>
    simp only [Node.idOf] at hid
    simp [findTaskById, hid]

/-- When the id occurs nowhere, the first-match rewrite touches nothing. -/
theorem updateFirst_not_found (tid : String) (f : Node → Node) :
    ∀ (n : Node), findTaskById n tid = none → updateFirst tid f n = (n, false) := by
  refine Node.strongInduction
    (fun n => findTaskById n tid = none → updateFirst tid f n = (n, false)) ?_
  intro i t d s ca ua subs ih hnone
  have hlist : ∀ (cs : List Node),
      (∀ c ∈ cs, findTaskById c tid = none → updateFirst tid f c = (c, false)) →
      findTaskByIdList cs tid = none → updateFirstList tid f cs = (cs, false) := by
    intro cs
    induction cs with
    | nil => intro _ _; rfl
    | cons c cs ihl =>
      intro hcs hn
      simp only [findTaskByIdList] at hn
      cases hc : findTaskById c tid with
      | some r => rw [hc] at hn; simp at hn
      | none =>
        rw [hc] at hn
        have h1 := hcs c (by simp) hc
        have h2 := ihl (fun x hx => hcs x (by simp [hx])) hn
        simp only [updateFirstList, h1, h2]
        simp
  simp only [findTaskById] at hnone
  by_cases hi : i = some tid
  · rw [if_pos hi] at hnone; simp at hnone
  · rw [if_neg hi] at hnone
    have hres := hlist subs ih hnone
    simp only [updateFirst, if_neg hi, hres]

/-- When _find_task_by_id finds a node, rewriting the first match with an
id-preserving function succeeds and the first match of the rewritten tree
is the rewritten node. -/
theorem updateFirst_found (tid : String) (f : Node → Node)
    (hf : ∀ x, Node.idOf (f x) = Node.idOf x) :
    ∀ (n : Node) (nd : Node), findTaskById n tid = some nd →
      (updateFirst tid f n).2 = true ∧
      findTaskById (updateFirst tid f n).1 tid = some (f nd) := by
  refine Node.strongInduction
    (fun n => ∀ nd, findTaskById n tid = some nd →
      (updateFirst tid f n).2 = true ∧
      findTaskById (updateFirst tid f n).1 tid = some (f nd)) ?_
  intro i t d s ca ua subs ih nd hfound
  have hlist : ∀ (cs : List Node),
      (∀ c ∈ cs, ∀ m, findTaskById c tid = some m →
        (updateFirst tid f c).2 = true ∧
        findTaskById (updateFirst tid f c).1 tid = some (f m)) →
      ∀ m, findTaskByIdList cs tid = some m →
        (updateFirstList tid f cs).2 = true ∧
        findTaskByIdList (updateFirstList tid f cs).1 tid = some (f m) := by
    intro cs
    induction cs with
    | nil => intro _ m hn; simp [findTaskByIdList] at hn
    | cons c cs ihl =>
      intro hcs m hn
      simp only [findTaskByIdList] at hn
      cases hc : findTaskById c tid with
      | some r =>
        rw [hc] at hn
        have hrm : r = m := Option.some.inj hn
        subst hrm
        obtain ⟨hflag, hfind⟩ := hcs c (by simp) r hc
        refine ⟨?_, ?_⟩
        · simp [updateFirstList, hflag]
        · simp only [updateFirstList, hflag, if_true, findTaskByIdList, hfind]
      | none =>
        rw [hc] at hn
        have hcu := updateFirst_not_found tid f c hc
        obtain ⟨hflag, hfind⟩ := ihl (fun x hx => hcs x (by simp [hx])) m hn
        refine ⟨?_, ?_⟩
        · simp [updateFirstList, hcu, hflag]
        · simp only [updateFirstList, hcu]
          simp only [Bool.false_eq_true, if_false, findTaskByIdList, hc, hfind]
  simp only [findTaskById] at hfound
  by_cases hi : i = some tid
  · rw [if_pos hi] at hfound
    have hsub : Node.mk i t d s ca ua subs = nd := Option.some.inj hfound
    subst hsub
    refine ⟨by simp [updateFirst, hi], ?_⟩
    simp only [updateFirst, if_pos hi]
    exact findTaskById_of_id (by rw [hf]; simp [Node.idOf, hi])
  · rw [if_neg hi] at hfound
    obtain ⟨hflag, hfind⟩ := hlist subs ih nd hfound
    refine ⟨by simp [updateFirst, if_neg hi, hflag], ?_⟩
    simp only [updateFirst, if_neg hi, findTaskById]
    exact hfind

/-- The field assignment of _update_task never touches the id. -/
theorem applyFields_idOf (td : TaskData) (now : String) (x : Node) :
    Node.idOf (applyFields td now x) = Node.idOf x := by
  cases x
  rfl

/-- C6 (amended): _update_task performs no status validation: an update
whose task_data carries any status string, recognised or not, together
with other fields succeeds, overwrites exactly the present fields among
title/description/status on the first matching task (the status string is
stored verbatim), refreshes updated_at and reports the updated field list;
no InvalidStatus failure exists in this code path.  (The frozen claim
asserts the update is rejected as a whole with an InvalidStatus error; the
counterexample shows it is accepted and fully applied.) -/
theorem c6_no_status_validation
    (tree : Node) (db : List Row) (td : TaskData) (now : String) (tid : String) (nd : Node)
    (hid : td.id = some tid) (htr : tid ≠ "")
    (hfound : findTaskById tree tid = some nd)
    (hst : td.status.isSome = true) :
    (updateTask tree db td now).1.success = true ∧
    (updateTask tree db td now).1.error = none ∧
    (updateTask tree db td now).1.updatedFields = some (updatedFieldsOf td) ∧
    findTaskById (updateTask tree db td now).2.1 tid = some (applyFields td now nd) ∧
    Node.statusOf (applyFields td now nd) = td.status := by
  have htru : pyTruthy (some tid) = true := by simp [pyTruthy, htr]
  have hfields : ¬ (updatedFieldsOf td = []) := by
    simp [updatedFieldsOf, hst, List.append_eq_nil]
  have hup := updateFirst_found tid (applyFields td now) (applyFields_idOf td now)
    tree nd hfound
  refine ⟨?_, ?_, ?_, ?_, ?_⟩
  · simp only [updateTask, hid, htru, if_true, Option.getD_some, hfound, if_neg hfields]
  · simp only [updateTask, hid, htru, if_true, Option.getD_some, hfound, if_neg hfields]
  · simp only [updateTask, hid, htru, if_true, Option.getD_some, hfound, if_neg hfields]
  · simp only [updateTask, hid, htru, if_true, Option.getD_some, hfound, if_neg hfields]
    exact hup.2
  · cases hv : td.status with
    | none => rw [hv] at hst; simp at hst
    | some v =>
      cases nd with
      | mk i t d s ca ua subs => simp [applyFields, Node.statusOf, hv, Option.or]

/-- Witness for c6_no_status_validation on a task updated with status
banana and title X. -/
theorem c6_no_status_validation_witness :
    (updateTask updTree [] updTd "T").1.success = true ∧
    (updateTask updTree [] updTd "T").1.error = none ∧
    (updateTask updTree [] updTd "T").1.updatedFields = some (updatedFieldsOf updTd) ∧
    findTaskById (updateTask updTree [] updTd "T").2.1 uuidA =
      some (applyFields updTd "T"
        (Node.mk (some uuidA) (some "Old") none (some "pending") none none [])) ∧
    Node.statusOf (applyFields updTd "T"
        (Node.mk (some uuidA) (some "Old") none (some "pending") none none []))
      = updTd.status :=
  c6_no_status_validation updTree [] updTd "T" uuidA
    (Node.mk (some uuidA) (some "Old") none (some "pending") none none [])
    (by rfl) (by decide) (by rfl) (by rfl)

/-- Counterexample to C6 as frozen: an update carrying the unrecognised
status banana together with a new title succeeds, and both the status and
the title are applied to the task; no InvalidStatus failure occurs and
nothing is rolled back. -/
theorem c6_counterexample :
    (updateTask updTree [] updTd "T").1.success = true ∧
    (updateTask updTree [] updTd "T").1.error = none ∧
    findTaskById (updateTask updTree [] updTd "T").2.1 uuidA =
      some (Node.mk (some uuidA) (some "X") none (some "banana") none (some "T") []) :=
  ⟨by rfl, by rfl, by rfl⟩

/-- The id of a node heads its own pre-order id list. -/
theorem idOf_mem_optIds (n : Node) : Node.idOf n ∈ optIds n := by
  cases n
  simp [optIds, Node.idOf]

/-- Pre-order ids of a member of a forest are ids of the forest. -/
theorem optIds_sub_of_mem : ∀ (cs : List Node) (x : Node), x ∈ cs →
    ∀ o ∈ optIds x, o ∈ optIdsList cs := by
  intro cs
  induction cs with
  | nil => intro x hx; simp at hx
  | cons c cs ih =>
    intro x hx o ho
    rcases List.mem_cons.mp hx with rfl | hx'
    · simp only [optIdsList, List.mem_append]
      exact Or.inl ho
    · simp only [optIdsList, List.mem_append]
      exact Or.inr (ih x hx' o ho)

/-- When tid occurs nowhere in the pre-order ids, _find_task_by_id misses. -/
theorem findTaskById_not_mem (tid : String) :
    ∀ (n : Node), (some tid) ∉ optIds n → findTaskById n tid = none := by
  refine Node.strongInduction
    (fun n => (some tid) ∉ optIds n → findTaskById n tid = none) ?_
  intro i t d s ca ua subs ih hnm
  have hlist : ∀ (cs : List Node),
      (∀ c ∈ cs, (some tid) ∉ optIds c → findTaskById c tid = none) →
      (some tid) ∉ optIdsList cs → findTaskByIdList cs tid = none := by
    intro cs
    induction cs with
    | nil => intro _ _; rfl
    | cons c cs ihl =>
      intro hcs hnm'
      simp only [optIdsList, List.mem_append] at hnm'
      push_neg at hnm'
      have h1 := hcs c (by simp) hnm'.1
      have h2 := ihl (fun x hx => hcs x (by simp [hx])) hnm'.2
      simp only [findTaskByIdList, h1, h2]
  simp only [optIds, List.mem_cons] at hnm
  push_neg at hnm
  simp only [findTaskById]
  rw [if_neg (fun hc => hnm.1 hc.symm)]
  exact hlist subs ih hnm.2

/-- When tid occurs nowhere, the delete rewrite touches nothing and reports
no parent found. -/
theorem removeHere_not_mem (tid : String) :
    ∀ (n : Node), (some tid) ∉ optIds n → removeHere tid n = (n, false) := by
  refine Node.strongInduction
    (fun n => (some tid) ∉ optIds n → removeHere tid n = (n, false)) ?_
  intro i t d s ca ua subs ih hnm
  have hlist : ∀ (cs : List Node),
      (∀ c ∈ cs, (some tid) ∉ optIds c → removeHere tid c = (c, false)) →
      (some tid) ∉ optIdsList cs → removeScan tid cs = (cs, false) := by
    intro cs
    induction cs with
    | nil => intro _ _; rfl
    | cons c cs ihl =>
      intro hcs hnm'
      simp only [optIdsList, List.mem_append] at hnm'
      push_neg at hnm'
      have hcid : Node.idOf c ≠ some tid := by
        intro hc
        exact hnm'.1 (hc ▸ idOf_mem_optIds c)
      have h1 := hcs c (by simp) hnm'.1
      have h2 := ihl (fun x hx => hcs x (by simp [hx])) hnm'.2
      simp only [removeScan, if_neg hcid, h1, h2]
      simp
  simp only [optIds, List.mem_cons] at hnm
  push_neg at hnm
  have := hlist subs ih hnm.2
  simp only [removeHere, this]

/-- The falsy-id filter of _collect_all_task_ids drops nothing when every
id value is present and non-empty. -/
theorem filterMap_length_all_some (l : List (Option String))
    (h : ∀ o ∈ l, o ≠ none ∧ o ≠ some "") :
    (l.filterMap (fun o => match o with
      | some s => if s = "" then none else some s
      | none => none)).length = l.length := by
  induction l with
  | nil => rfl
  | cons a l ih =>
    obtain ⟨ha1, ha2⟩ := h a (by simp)
    cases a with
    | none => exact absurd rfl ha1
    | some s =>
      have hs : s ≠ "" := by
        intro hc
        exact ha2 (by rw [hc])
      simp only [List.filterMap_cons, if_neg hs, List.length_cons]
      rw [ih (fun o ho => h o (by simp [ho]))]

/-- Deleting a list of ids from the mirror one by one removes exactly the
rows keyed by one of the ids. -/
theorem foldl_dbDelete (ids : List String) : ∀ (db : List Row),
    ids.foldl (fun d i => dbDeleteTask d i) db
      = db.filter (fun r => decide (r.id ∉ ids)) := by
  induction ids with
  | nil =>
    intro db
    simp [List.filter_eq_self]
  | cons i is ih =>
    intro db
    simp only [List.foldl_cons]
    rw [ih]
    unfold dbDeleteTask
    rw [List.filter_filter]
    congr 1
    funext r
    simp only [List.mem_cons, not_or]
    simp [Bool.and_comm]

/-- Joint induction (on a size bound) for the delete rewrite on trees and
forests: when the pre-order ids are distinct, the current node does not
carry tid, and tid occurs somewhere, _find_task_by_id returns the first
occurrence nd, the rewrite fires, and the pre-order ids of the result are
those of the input with the contiguous block of nd excised. -/
theorem removeSpecAux (tid : String) : ∀ (N : Nat),
    (∀ n : Node, sizeOf n ≤ N →
      (optIds n).Nodup → Node.idOf n ≠ some tid → (some tid) ∈ optIds n →
      ∃ nd l1 l2, findTaskById n tid = some nd ∧
        optIds n = l1 ++ optIds nd ++ l2 ∧
        (removeHere tid n).2 = true ∧
        optIds (removeHere tid n).1 = l1 ++ l2) ∧
    (∀ cs : List Node, sizeOf cs ≤ N →
      (optIdsList cs).Nodup → (some tid) ∈ optIdsList cs →
      ∃ nd l1 l2, findTaskByIdList cs tid = some nd ∧
        optIdsList cs = l1 ++ optIds nd ++ l2 ∧
        (removeScan tid cs).2 = true ∧
        optIdsList (removeScan tid cs).1 = l1 ++ l2) := by
  intro N
  induction N with
  | zero =>
    constructor
    · intro n hn
      cases n with
      | mk i t d s ca ua subs => simp at hn
    · intro cs hcs _ hm
      cases cs with
      | nil => simp [optIdsList] at hm
      | cons c cs => simp at hcs
  | succ N ih =>
    constructor
    · intro n hn hnd hne hm
      cases n with
      | mk i t d s ca ua subs =>
        have hsz : sizeOf subs ≤ N := by
          simp at hn
          omega
        have hmem : (some tid) ∈ optIdsList subs := by
          simp only [optIds, List.mem_cons] at hm
          rcases hm with h | h
          · exact absurd h.symm (by simpa [Node.idOf] using hne)
          · exact h
        have hndl : (optIdsList subs).Nodup := by
          simp only [optIds] at hnd
          exact hnd.of_cons
        obtain ⟨nd, l1, l2, hfind, heq, hflag, hres⟩ := ih.2 subs hsz hndl hmem
        refine ⟨nd, i :: l1, l2, ?_, ?_, ?_, ?_⟩
        · simp only [findTaskById]
          rw [if_neg (by simpa [Node.idOf] using hne)]
          exact hfind
        · simp only [optIds, heq, List.cons_append]
        · simp only [removeHere, hflag]
        · simp only [removeHere, optIds, hres, List.cons_append]
    · intro cs hcs hnd hm
      cases cs with
      | nil => simp [optIdsList] at hm
      | cons c cs =>
        have hszc : sizeOf c ≤ N := by
          simp at hcs
          omega
        have hszcs : sizeOf cs ≤ N := by
          simp at hcs
          omega
        by_cases hc : Node.idOf c = some tid
        · have hnotcs : (some tid) ∉ optIdsList cs := by
            have hdisj := List.disjoint_of_nodup_append (by simpa [optIdsList] using hnd)
            exact fun hmem => hdisj (hc ▸ idOf_mem_optIds c) hmem
          have hkeep : ∀ x ∈ cs, Node.idOf x ≠ some tid := by
            intro x hx hcx
            exact hnotcs (hcx ▸ optIds_sub_of_mem cs x hx (Node.idOf x) (idOf_mem_optIds x))
          refine ⟨c, [], optIdsList cs, ?_, ?_, ?_, ?_⟩
          · simp only [findTaskByIdList, findTaskById_of_id hc]
          · simp [optIdsList]
          · simp only [removeScan, if_pos hc]
          · simp only [removeScan, if_pos hc]
            rw [List.filter_cons]
            have hpc : decide (Node.idOf c ≠ some tid) = false := by
              simp [hc]
            rw [hpc]
            simp only [Bool.false_eq_true, if_false, List.nil_append]
            congr 1
            exact List.filter_eq_self.mpr (fun x hx => by simp [hkeep x hx])
        · by_cases hin : (some tid) ∈ optIds c
          · have hndc : (optIds c).Nodup := by
              simp only [optIdsList] at hnd
              exact hnd.of_append_left
            obtain ⟨nd, l1, l2, hfind, heq, hflag, hres⟩ := ih.1 c hszc hndc hc hin
            refine ⟨nd, l1, l2 ++ optIdsList cs, ?_, ?_, ?_, ?_⟩
            · simp only [findTaskByIdList, hfind]
            · simp only [optIdsList, heq]
              simp [List.append_assoc]
            · simp only [removeScan, if_neg hc, hflag, if_true]
            · simp only [removeScan, if_neg hc, hflag, if_true, optIdsList, hres]
              simp [List.append_assoc]
          · have hmt : (some tid) ∈ optIdsList cs := by
              simp only [optIdsList, List.mem_append] at hm
              tauto
            have hndt : (optIdsList cs).Nodup := by
              simp only [optIdsList] at hnd
              exact hnd.of_append_right
            obtain ⟨nd, l1, l2, hfind, heq, hflag, hres⟩ := ih.2 cs hszcs hndt hmt
            have hfc := findTaskById_not_mem tid c hin
            have hrc := removeHere_not_mem tid c hin
            refine ⟨nd, optIds c ++ l1, l2, ?_, ?_, ?_, ?_⟩
            · simp only [findTaskByIdList, hfc, hfind]
            · simp only [optIdsList, heq]
              simp [List.append_assoc]
            · simp only [removeScan, if_neg hc, hrc]
              simpa using hflag
            · simp only [removeScan, if_neg hc, hrc]
              simp only [Bool.false_eq_true, if_false, optIdsList, hres]
              simp [List.append_assoc]

/-- Tree-level corollary of removeSpecAux. -/
theorem removeHere_spec (tid : String) (n : Node)
    (hnd : (optIds n).Nodup) (hne : Node.idOf n ≠ some tid) (hm : (some tid) ∈ optIds n) :
    ∃ nd l1 l2, findTaskById n tid = some nd ∧
      optIds n = l1 ++ optIds nd ++ l2 ∧
      (removeHere tid n).2 = true ∧
      optIds (removeHere tid n).1 = l1 ++ l2 :=
  (removeSpecAux tid (sizeOf n)).1 n (le_refl _) hnd hne hm

/-- C5: cascade delete.  In a tree rooted at the literal root whose
pre-order id values are pairwise distinct, all present and non-empty,
deleting a non-root id that occurs in the tree finds the subtree nd rooted
at that id and: the call reports success with deleted count equal to the
size of nd (the node plus its N descendants, that is N+1); the mirror is
left as the original minus exactly the rows keyed by one of nd's collected
ids; and the pre-order ids of the resulting tree are those of the original
with nd's contiguous block excised, so the node leaves its parent's
children list and nothing else moves.  Deleting an id absent from the tree
fails with the Task-not-found error and leaves the tree and the mirror
unchanged. -/
theorem c5_cascade_delete :
    (∀ (tree : Node) (db : List Row) (tid : String),
      Node.idOf tree = some "root" → tid ≠ "root" →
      (some tid) ∈ optIds tree →
      (optIds tree).Nodup →
      (∀ o ∈ optIds tree, o ≠ none ∧ o ≠ some "") →
      ∃ nd l1 l2, findTaskById tree tid = some nd ∧
        optIds tree = l1 ++ optIds nd ++ l2 ∧
        deleteTask tree db (some tid) =
          ({ success := true, taskId := some tid, deletedCount := some (Node.size nd) },
            (removeHere tid tree).1,
            db.filter (fun r => decide (r.id ∉ collectAllTaskIds nd))) ∧
        optIds (removeHere tid tree).1 = l1 ++ l2 ∧
        (collectAllTaskIds nd).length = Node.size nd) ∧
    (∀ (tree : Node) (db : List Row) (tid : String),
      tid ≠ "" → tid ≠ "root" → (some tid) ∉ optIds tree →
      deleteTask tree db (some tid) =
        ({ success := false, error := some ("Task not found: " ++ tid) }, tree, db)) := by
  constructor
  · intro tree db tid hroot hnr hm hnd hgood
    have hne2 : Node.idOf tree ≠ some tid := by
      rw [hroot]
      intro hc
      exact hnr (Option.some.inj hc).symm
    obtain ⟨nd, l1, l2, hfind, heq, hflag, hres⟩ := removeHere_spec tid tree hnd hne2 hm
    have hsub : ∀ o ∈ optIds nd, o ∈ optIds tree := by
      intro o ho
      rw [heq]
      simp [ho]
    have hcount : (collectAllTaskIds nd).length = Node.size nd := by
      unfold collectAllTaskIds Node.size
      exact filterMap_length_all_some (optIds nd) (fun o ho => hgood o (hsub o ho))
    have htid : tid ≠ "" := by
      have hgm := hgood (some tid) hm
      intro hc
      exact hgm.2 (by rw [hc])
    have htru : pyTruthy (some tid) = true := by simp [pyTruthy, htid]
    refine ⟨nd, l1, l2, hfind, heq, ?_, hres, hcount⟩
    unfold deleteTask
    simp only [htru, if_true, Option.getD_some, if_neg hnr, if_neg hne2, hflag, hfind]
    rw [foldl_dbDelete, hcount]
  · intro tree db tid hne hnr hnm
    have hne2 : Node.idOf tree ≠ some tid := by
      intro hc
      exact hnm (hc ▸ idOf_mem_optIds tree)
    have hrm := removeHere_not_mem tid tree hnm
    have htru : pyTruthy (some tid) = true := by simp [pyTruthy, hne]
    unfold deleteTask
    simp only [htru, if_true, Option.getD_some, if_neg hnr, if_neg hne2, hrm]
    simp

/-- Witness for c5_cascade_delete: deleting the child uuidA (which has one
descendant uuidB) from a concrete tree with a mirror row keyed uuidA, and a
Task-not-found instance on the bare root tree. -/
theorem c5_cascade_delete_witness :
    (∃ nd l1 l2, findTaskById delTree uuidA = some nd ∧
      optIds delTree = l1 ++ optIds nd ++ l2 ∧
      deleteTask delTree [exRow] (some uuidA) =
        ({ success := true, taskId := some uuidA, deletedCount := some (Node.size nd) },
          (removeHere uuidA delTree).1,
          [exRow].filter (fun r => decide (r.id ∉ collectAllTaskIds nd))) ∧
      optIds (removeHere uuidA delTree).1 = l1 ++ l2 ∧
      (collectAllTaskIds nd).length = Node.size nd) ∧
    deleteTask rootOnly [] (some uuidB) =
      ({ success := false, error := some ("Task not found: " ++ uuidB) }, rootOnly, []) :=
  ⟨c5_cascade_delete.1 delTree [exRow] uuidA (by rfl) (by decide) (by decide) (by decide)
      (by decide),
   c5_cascade_delete.2 rootOnly [] uuidB (by decide) (by decide) (by decide)⟩

